import Mathlib

/-!
# Shallow embedding of `kilo.c` (oldsharp/kilo)

This file embeds the terminal I/O and rendering core of the kilo text
viewer in Lean 4 and proves the specified properties about it.

Modelling conventions:
* C `int` fields of `struct editor_config` hold only non-negative values in
  every reachable state (all decrements in the source are guarded by a
  positivity test), so they are embedded as `Nat`.  Where the C source can
  transiently compute a negative intermediate (the `len` computation in
  `editor_draw_rows`), the embedding uses `Int` locally, exactly as the
  source comments describe.
* A row (`erow`) always satisfies `size = strlen(chars)` because
  `editor_append_row` is the only constructor of rows; a row is therefore
  embedded as its character list and `size` as its length.
* Input is a byte stream.  `read` with `VMIN=0, VTIME=1` either yields the
  next byte or times out; the stream is embedded as the first byte obtained
  by the blocking loop plus the list of bytes still available, a read from
  an exhausted list being a timeout.
* Terminal output is a byte (character) buffer; `editor_refresh_screen`
  performs exactly one `write` of the accumulated buffer, so its embedding
  returns the updated state together with that single written buffer.
-/

namespace Kilo

/-- `#define KILO_VERSION "0.0.1"` -/
def KILO_VERSION : String := "0.0.1"

/-- Result of `editor_read_key`: either a literal byte (the C code returns
the `char` itself as an `int`) or one of the `enum editor_key` values
(1000...1008 in the source).  The Escape key is the literal byte 27. -/
inductive Key where
  | ch (b : Nat)
  | arrowLeft
  | arrowRight
  | arrowUp
  | arrowDown
  | delKey
  | homeKey
  | endKey
  | pageUp
  | pageDown
  deriving DecidableEq, Repr

/-- `#define CTRL_KEY(k) ((k) & 0x1f)` -/
def CTRL_KEY (k : Nat) : Nat := k &&& 0x1f

/-- `editor_read_key` (kilo.c lines 124-213).  `c` is the byte obtained by
the initial blocking read; `rest` lists the bytes still available, so that
a read from `[]` models a `VTIME` timeout (`read` returning 0).  The result
pairs the decoded key with the total number of input bytes consumed,
`c` included. -/
def editor_read_key (c : Nat) (rest : List Nat) : Key × Nat :=
  if c = 0x1b then
    match rest with
    | [] => (Key.ch 0x1b, 1)          -- read of seq[0] timed out
    | [_] => (Key.ch 0x1b, 2)         -- read of seq[1] timed out
    | s0 :: s1 :: rest2 =>
      if s0 = '['.toNat then
        if '0'.toNat ≤ s1 ∧ s1 ≤ '9'.toNat then
          match rest2 with
          | [] => (Key.ch 0x1b, 3)    -- read of seq[2] timed out
          | s2 :: _ =>
            if s2 = '~'.toNat then
              if s1 = '1'.toNat then (Key.homeKey, 4)
              else if s1 = '3'.toNat then (Key.delKey, 4)
              else if s1 = '4'.toNat then (Key.endKey, 4)
              else if s1 = '5'.toNat then (Key.pageUp, 4)
              else if s1 = '6'.toNat then (Key.pageDown, 4)
              else if s1 = '7'.toNat then (Key.homeKey, 4)
              else if s1 = '8'.toNat then (Key.endKey, 4)
              else (Key.ch 0x1b, 4)
            else (Key.ch 0x1b, 4)
        else
          if s1 = 'A'.toNat then (Key.arrowUp, 3)
          else if s1 = 'B'.toNat then (Key.arrowDown, 3)
          else if s1 = 'C'.toNat then (Key.arrowRight, 3)
          else if s1 = 'D'.toNat then (Key.arrowLeft, 3)
          else if s1 = 'H'.toNat then (Key.homeKey, 3)
          else if s1 = 'F'.toNat then (Key.endKey, 3)
          else (Key.ch 0x1b, 3)
      else if s0 = 'O'.toNat then
        if s1 = 'H'.toNat then (Key.homeKey, 3)
        else if s1 = 'F'.toNat then (Key.endKey, 3)
        else (Key.ch 0x1b, 3)
      else (Key.ch 0x1b, 3)
  else (Key.ch c, 1)

/-- `struct editor_config` (kilo.c lines 52-84), without the `termios`
snapshot, which no claim concerns.  `numrows` is `rows.length`. -/
structure EditorConfig where
  cx : Nat
  cy : Nat
  rowoff : Nat
  coloff : Nat
  screenrows : Nat
  screencols : Nat
  rows : List (List Char)
  deriving DecidableEq, Repr

/-- Length of row `y`, 0 for a row at or past the end: this is the value of
`row ? row->size : 0` after `row = (cy >= numrows) ? NULL : &E.row[cy]`. -/
def lineLen (rows : List (List Char)) (y : Nat) : Nat :=
  (rows.getD y []).length

/-- `editor_move_cursor` (kilo.c lines 440-478).  Every arm mirrors one
`case` of the `switch`; the trailing `if` is the final column clamp.  In
the `ARROW_LEFT` wrap arm the C source indexes `E.row[E.cy]` after the
decrement, which is in bounds exactly when `cy <= numrows` held before the
call; `lineLen` gives that value (0 past the end). -/
def editor_move_cursor (key : Key) (E : EditorConfig) : EditorConfig :=
  let E' :=
    match key with
    | Key.arrowLeft =>
      if E.cx ≠ 0 then { E with cx := E.cx - 1 }
      else if E.cy > 0 then
        { E with cy := E.cy - 1, cx := lineLen E.rows (E.cy - 1) }
      else E
    | Key.arrowRight =>
      if E.cy < E.rows.length ∧ E.cx < lineLen E.rows E.cy then
        { E with cx := E.cx + 1 }
      else if E.cy < E.rows.length ∧ E.cx = lineLen E.rows E.cy then
        { E with cy := E.cy + 1, cx := 0 }
      else E
    | Key.arrowUp =>
      if E.cy ≠ 0 then { E with cy := E.cy - 1 } else E
    | Key.arrowDown =>
      if E.cy < E.rows.length then { E with cy := E.cy + 1 } else E
    | _ => E
  let rowlen := lineLen E'.rows E'.cy
  if E'.cx > rowlen then { E' with cx := rowlen } else E'

/-- `editor_scroll` (kilo.c lines 338-346): two sequential `if`s adjusting
`rowoff`.  In the second branch `cy >= rowoff + screenrows >= screenrows`,
so the `Nat` subtraction is exact. -/
def editor_scroll (E : EditorConfig) : EditorConfig :=
  let E1 := if E.cy < E.rowoff then { E with rowoff := E.cy } else E
  if E1.rowoff + E1.screenrows ≤ E1.cy then
    { E1 with rowoff := E1.cy - E1.screenrows + 1 }
  else E1

/-- The `while (times--) editor_move_cursor(...)` loop of the
`PAGE_UP`/`PAGE_DOWN` case (kilo.c lines 500-506). -/
def move_times (k : Key) : Nat → EditorConfig → EditorConfig
  | 0, E => E
  | n + 1, E => move_times k n (editor_move_cursor k E)

/-- The state transition of `editor_process_keypress` (kilo.c lines
480-516) for an already-decoded key.  `CTRL_KEY('q')` clears the screen
and exits the process, which the embedding renders as `none`; a literal
byte other than `CTRL_KEY('q')` matches no `case` and leaves the state
unchanged. -/
def editor_process_key (c : Key) (E : EditorConfig) : Option EditorConfig :=
  match c with
  | Key.ch b => if b = CTRL_KEY 'q'.toNat then none else some E
  | Key.homeKey => some { E with cx := 0 }
  | Key.endKey => some { E with cx := E.screencols - 1 }
  | Key.pageUp => some (move_times Key.arrowUp E.screenrows E)
  | Key.pageDown => some (move_times Key.arrowDown E.screenrows E)
  | Key.delKey => some E
  | k => some (editor_move_cursor k E)

/-- The welcome banner text written by `snprintf` (kilo.c lines 356-360);
its length (28) is below the 80-byte buffer, so `welcomelen` is exactly
this length before the screen-width clamp. -/
def WELCOME : List Char := ("Kilo editor -- version " ++ KILO_VERSION).toList

/-- The banner row built for `numrows == 0 && i == screenrows / 3`
(kilo.c lines 355-372): clamp the banner length to the screen width,
center with a leading `~` when there is padding, then the banner text. -/
def welcome_row (screencols : Nat) : List Char :=
  let welcomelen := min WELCOME.length screencols
  let padding := (screencols - welcomelen) / 2
  (if padding ≠ 0 then '~' :: List.replicate (padding - 1) ' ' else [])
    ++ WELCOME.take welcomelen

/-- The visible slice of text row `filerow` (kilo.c lines 377-392):
`len = size - coloff`, clamped below by 0 and above by `screencols`; the
append starts at `chars[coloff]`.  `len` is computed in `Int` because the
source notes it can be negative before the clamp. -/
def text_row (E : EditorConfig) (filerow : Nat) : List Char :=
  let chars := E.rows.getD filerow []
  let len : Int := (chars.length : Int) - (E.coloff : Int)
  let len := if len < 0 then 0 else len
  let len := if (E.screencols : Int) < len then (E.screencols : Int) else len
  (chars.drop E.coloff).take len.toNat

/-- Content of screen row `i` before the erase-to-end-of-line sequence:
the body of the `if (filerow >= E.numrows)` / `else` in
`editor_draw_rows` (kilo.c lines 352-393). -/
def draw_row_content (E : EditorConfig) (i : Nat) : List Char :=
  let filerow := i + E.rowoff
  if E.rows.length ≤ filerow then
    if E.rows.length = 0 ∧ i = E.screenrows / 3 then welcome_row E.screencols
    else ['~']
  else text_row E filerow

/-- One full iteration of the `editor_draw_rows` loop for row `i`:
content, then `"\x1b[K"`, then `"\r\n"` when `i < screenrows - 1`
(kilo.c lines 394-407). -/
def draw_row (E : EditorConfig) (i : Nat) : List Char :=
  draw_row_content E i ++ "\x1b[K".toList
    ++ (if i < E.screenrows - 1 then "\r\n".toList else [])

/-- The `for (i = 0; i < E.screenrows; i++)` loop of `editor_draw_rows`,
as a structural recursion on the number of remaining iterations. -/
def draw_rows_go (E : EditorConfig) (i : Nat) : Nat → List Char
  | 0 => []
  | n + 1 => draw_row E i ++ draw_rows_go E (i + 1) n

/-- `editor_draw_rows` (kilo.c lines 348-409): the bytes it appends to the
frame buffer. -/
def editor_draw_rows (E : EditorConfig) : List Char :=
  draw_rows_go E 0 E.screenrows

/-- The cursor-positioning sequence `snprintf(buf, .., "\x1b[%d;%dH", E.cy
- E.rowoff + 1, E.cx - E.coloff + 1)` (kilo.c lines 429-433). -/
def position_seq (E : EditorConfig) : List Char :=
  "\x1b[".toList ++ (Nat.repr (E.cy - E.rowoff + 1)).toList ++ [';']
    ++ (Nat.repr (E.cx - E.coloff + 1)).toList ++ ['H']

/-- `editor_refresh_screen` (kilo.c lines 411-438): scroll, then build one
append buffer — hide cursor, cursor home, the drawn rows, the
cursor-positioning sequence, show cursor — and perform the single
`write` of it.  The result pairs the updated state with that one written
buffer. -/
def editor_refresh_screen (E : EditorConfig) : EditorConfig × List Char :=
  let E' := editor_scroll E
  (E', "\x1b[?25l".toList ++ "\x1b[H".toList ++ editor_draw_rows E'
    ++ position_seq E' ++ "\x1b[?25h".toList)

/-- `init_editor` (kilo.c lines 518-530): zero cursor and offsets, empty
row store, geometry from `get_window_size`. -/
def init_editor (screenrows screencols : Nat) : EditorConfig :=
  { cx := 0, cy := 0, rowoff := 0, coloff := 0,
    screenrows := screenrows, screencols := screencols, rows := [] }

/-- `editor_append_row` (kilo.c lines 274-284): append one row record. -/
def editor_append_row (E : EditorConfig) (s : List Char) : EditorConfig :=
  { E with rows := E.rows ++ [s] }

/-- `editor_open` (kilo.c lines 289-309): append every stripped line of
the file in order. -/
def editor_open (E : EditorConfig) (lines : List (List Char)) : EditorConfig :=
  lines.foldl editor_append_row E

/-- The editor states reachable by the program: `init_editor` with any
geometry, optionally `editor_open` on a file (kilo.c lines 532-539),
then any interleaving of `editor_refresh_screen` and
`editor_process_keypress` (the `while (1)` loop, kilo.c lines 541-544). -/
inductive Reachable : EditorConfig → Prop where
  | start (r c : Nat) (lines : List (List Char)) :
      Reachable (editor_open (init_editor r c) lines)
  | refresh {E : EditorConfig} :
      Reachable E → Reachable (editor_refresh_screen E).1
  | key {E E' : EditorConfig} (k : Key) :
      Reachable E → editor_process_key k E = some E' → Reachable E'

/-! ## Helper lemmas about the embedded operations -/

theorem lineLen_past_end (rows : List (List Char)) (y : Nat)
    (h : rows.length ≤ y) : lineLen rows y = 0 := by
  unfold lineLen
  rw [List.getD_eq_default _ _ h]
  rfl

theorem move_rows (k : Key) (E : EditorConfig) :
    (editor_move_cursor k E).rows = E.rows := by
  obtain ⟨cx, cy, ro, co, sr, sc, rows⟩ := E
  cases k <;> simp only [editor_move_cursor] <;> (repeat' split) <;> rfl

theorem move_coloff (k : Key) (E : EditorConfig) :
    (editor_move_cursor k E).coloff = E.coloff := by
  obtain ⟨cx, cy, ro, co, sr, sc, rows⟩ := E
  cases k <;> simp only [editor_move_cursor] <;> (repeat' split) <;> rfl

theorem move_cx_clamped (k : Key) (E : EditorConfig) :
    (editor_move_cursor k E).cx ≤
      lineLen (editor_move_cursor k E).rows (editor_move_cursor k E).cy := by
  obtain ⟨cx, cy, ro, co, sr, sc, rows⟩ := E
  cases k <;> simp only [editor_move_cursor] <;> (repeat' split) <;> simp_all

theorem move_cy_le (k : Key) (E : EditorConfig) (h : E.cy ≤ E.rows.length) :
    (editor_move_cursor k E).cy ≤ (editor_move_cursor k E).rows.length := by
  obtain ⟨cx, cy, ro, co, sr, sc, rows⟩ := E
  cases k <;> simp only [editor_move_cursor] <;> (repeat' split) <;> simp_all <;> omega

theorem move_times_rows (k : Key) (n : Nat) (E : EditorConfig) :
    (move_times k n E).rows = E.rows := by
  induction n generalizing E with
  | zero => rfl
  | succ m ih => rw [move_times, ih, move_rows]

theorem move_times_coloff (k : Key) (n : Nat) (E : EditorConfig) :
    (move_times k n E).coloff = E.coloff := by
  induction n generalizing E with
  | zero => rfl
  | succ m ih => rw [move_times, ih, move_coloff]

theorem move_times_cy_le (k : Key) (n : Nat) (E : EditorConfig)
    (h : E.cy ≤ E.rows.length) :
    (move_times k n E).cy ≤ (move_times k n E).rows.length := by
  induction n generalizing E with
  | zero => exact h
  | succ m ih => exact ih _ (move_cy_le k E h)

theorem move_times_cx_clamped (k : Key) (n : Nat) (E : EditorConfig)
    (h : E.cx ≤ lineLen E.rows E.cy) :
    (move_times k n E).cx ≤
      lineLen (move_times k n E).rows (move_times k n E).cy := by
  induction n generalizing E with
  | zero => exact h
  | succ m ih => exact ih _ (move_cx_clamped k E)

theorem move_times_eq_iterate (k : Key) (n : Nat) (E : EditorConfig) :
    move_times k n E = (editor_move_cursor k)^[n] E := by
  induction n generalizing E with
  | zero => rfl
  | succ m ih => rw [move_times, ih, Function.iterate_succ_apply]

/-- Case analysis of `editor_move_cursor` on `ARROW_LEFT`, for a cursor
whose column respects the clamp. -/
theorem move_left_split (E : EditorConfig) (hcx : E.cx ≤ lineLen E.rows E.cy) :
    (E.cx ≠ 0 → editor_move_cursor Key.arrowLeft E = { E with cx := E.cx - 1 }) ∧
    (E.cx = 0 → 0 < E.cy →
      editor_move_cursor Key.arrowLeft E =
        { E with cy := E.cy - 1, cx := lineLen E.rows (E.cy - 1) }) ∧
    (E.cx = 0 → E.cy = 0 → editor_move_cursor Key.arrowLeft E = E) := by
  obtain ⟨cx, cy, ro, co, sr, sc, rows⟩ := E
  refine ⟨fun h => ?_, fun h h2 => ?_, fun h h2 => ?_⟩ <;>
    (simp only [editor_move_cursor]; (repeat' split)) <;> simp_all <;> omega

/-- Case analysis of `editor_move_cursor` on `ARROW_RIGHT`, for a cursor
whose column respects the clamp. -/
theorem move_right_split (E : EditorConfig) (hcx : E.cx ≤ lineLen E.rows E.cy) :
    (E.cy < E.rows.length → E.cx < lineLen E.rows E.cy →
      editor_move_cursor Key.arrowRight E = { E with cx := E.cx + 1 }) ∧
    (E.cy < E.rows.length → E.cx = lineLen E.rows E.cy →
      editor_move_cursor Key.arrowRight E = { E with cy := E.cy + 1, cx := 0 }) ∧
    (E.rows.length ≤ E.cy → editor_move_cursor Key.arrowRight E = E) := by
  obtain ⟨cx, cy, ro, co, sr, sc, rows⟩ := E
  refine ⟨fun h h2 => ?_, fun h h2 => ?_, fun h => ?_⟩ <;>
    (simp only [editor_move_cursor]; (repeat' split)) <;> simp_all <;> omega

theorem scroll_cy (E : EditorConfig) : (editor_scroll E).cy = E.cy := by
  obtain ⟨cx, cy, ro, co, sr, sc, rows⟩ := E
  simp only [editor_scroll] <;> (repeat' split) <;> rfl

theorem scroll_rows (E : EditorConfig) : (editor_scroll E).rows = E.rows := by
  obtain ⟨cx, cy, ro, co, sr, sc, rows⟩ := E
  simp only [editor_scroll] <;> (repeat' split) <;> rfl

theorem scroll_coloff (E : EditorConfig) : (editor_scroll E).coloff = E.coloff := by
  obtain ⟨cx, cy, ro, co, sr, sc, rows⟩ := E
  simp only [editor_scroll] <;> (repeat' split) <;> rfl

theorem open_cy (E : EditorConfig) (ls : List (List Char)) :
    (editor_open E ls).cy = E.cy := by
  induction ls generalizing E with
  | nil => rfl
  | cons l t ih => exact ih _

theorem open_rows (E : EditorConfig) (ls : List (List Char)) :
    (editor_open E ls).rows = E.rows ++ ls := by
  induction ls generalizing E with
  | nil => simp [editor_open]
  | cons l t ih =>
    show (editor_open (editor_append_row E l) t).rows = E.rows ++ l :: t
    rw [ih]
    simp [editor_append_row]

theorem open_coloff (E : EditorConfig) (ls : List (List Char)) :
    (editor_open E ls).coloff = E.coloff := by
  induction ls generalizing E with
  | nil => rfl
  | cons l t ih => exact ih _

/-- The data-model row bound `cy ≤ numrows` holds in every reachable
state. -/
theorem reachable_cy_le (E : EditorConfig) (h : Reachable E) :
    E.cy ≤ E.rows.length := by
  induction h with
  | start r c lines =>
    rw [open_cy]
    exact Nat.zero_le _
  | refresh h ih =>
    show (editor_scroll _).cy ≤ (editor_scroll _).rows.length
    rw [scroll_cy, scroll_rows]
    exact ih
  | key k h heq ih =>
    cases k with
    | ch b =>
      simp only [editor_process_key] at heq
      split at heq
      · exact Option.noConfusion heq
      · obtain rfl : _ = _ := Option.some.inj heq
        exact ih
    | homeKey =>
      obtain rfl : _ = _ := Option.some.inj heq
      exact ih
    | endKey =>
      obtain rfl : _ = _ := Option.some.inj heq
      exact ih
    | delKey =>
      obtain rfl : _ = _ := Option.some.inj heq
      exact ih
    | pageUp =>
      obtain rfl : _ = _ := Option.some.inj heq
      exact move_times_cy_le _ _ _ ih
    | pageDown =>
      obtain rfl : _ = _ := Option.some.inj heq
      exact move_times_cy_le _ _ _ ih
    | arrowLeft =>
      obtain rfl : _ = _ := Option.some.inj heq
      exact move_cy_le _ _ ih
    | arrowRight =>
      obtain rfl : _ = _ := Option.some.inj heq
      exact move_cy_le _ _ ih
    | arrowUp =>
      obtain rfl : _ = _ := Option.some.inj heq
      exact move_cy_le _ _ ih
    | arrowDown =>
      obtain rfl : _ = _ := Option.some.inj heq
      exact move_cy_le _ _ ih

/-- No operation of the program ever writes `coloff`. -/
theorem reachable_coloff_zero (E : EditorConfig) (h : Reachable E) :
    E.coloff = 0 := by
  induction h with
  | start r c lines => rw [open_coloff]; rfl
  | refresh h ih =>
    show (editor_scroll _).coloff = 0
    rw [scroll_coloff]
    exact ih
  | key k h heq ih =>
    cases k with
    | ch b =>
      simp only [editor_process_key] at heq
      split at heq
      · exact Option.noConfusion heq
      · obtain rfl : _ = _ := Option.some.inj heq
        exact ih
    | homeKey => obtain rfl : _ = _ := Option.some.inj heq; exact ih
    | endKey => obtain rfl : _ = _ := Option.some.inj heq; exact ih
    | delKey => obtain rfl : _ = _ := Option.some.inj heq; exact ih
    | pageUp =>
      obtain rfl : _ = _ := Option.some.inj heq
      rw [move_times_coloff]
      exact ih
    | pageDown =>
      obtain rfl : _ = _ := Option.some.inj heq
      rw [move_times_coloff]
      exact ih
    | arrowLeft =>
      obtain rfl : _ = _ := Option.some.inj heq
      rw [move_coloff]; exact ih
    | arrowRight =>
      obtain rfl : _ = _ := Option.some.inj heq
      rw [move_coloff]; exact ih
    | arrowUp =>
      obtain rfl : _ = _ := Option.some.inj heq
      rw [move_coloff]; exact ih
    | arrowDown =>
      obtain rfl : _ = _ := Option.some.inj heq
      rw [move_coloff]; exact ih

theorem intercalate_cons₂ {α : Type} (sep a b : List α) (t : List (List α)) :
    List.intercalate sep (a :: b :: t) =
      a ++ sep ++ List.intercalate sep (b :: t) := by
  simp [List.intercalate, List.intersperse]

/-- The `editor_draw_rows` loop emits the row contents (each followed by
the erase-to-end-of-line sequence) separated by CRLF, with no CRLF after
the last row. -/
theorem draw_rows_go_intercalate (E : EditorConfig) :
    ∀ (n i : Nat), i + n = E.screenrows →
      draw_rows_go E i n =
        List.intercalate "\r\n".toList
          ((List.range' i n).map
            (fun j => draw_row_content E j ++ "\x1b[K".toList)) := by
  intro n
  induction n with
  | zero => intro i h; simp [draw_rows_go, List.intercalate]
  | succ m ih =>
    intro i h
    rw [draw_rows_go, draw_row, List.range'_succ, List.map_cons]
    cases m with
    | zero =>
      rw [draw_rows_go]
      have : ¬ i < E.screenrows - 1 := by omega
      simp [this, List.intercalate, List.intersperse]
    | succ m' =>
      rw [ih (i + 1) (by omega)]
      rw [List.range'_succ, List.map_cons, intercalate_cons₂]
      have : i < E.screenrows - 1 := by omega
      simp [this, List.append_assoc]

theorem editor_draw_rows_intercalate (E : EditorConfig) :
    editor_draw_rows E =
      List.intercalate "\r\n".toList
        ((List.range E.screenrows).map
          (fun j => draw_row_content E j ++ "\x1b[K".toList)) := by
  rw [editor_draw_rows, List.range_eq_range']
  exact draw_rows_go_intercalate E E.screenrows 0 (by omega)

/-! ## Claim theorems -/

/-- C1 (counterexample): the claimed invariant "column in
[0, currentLineLength] for every reachable state, cursor mutated
exclusively by moveCursor" is false.  From the initial state with an 80
column screen and an empty Line Store, the End key handler (kilo.c line
495) assigns `cx = screencols - 1 = 79` directly, a reachable state whose
column exceeds the current line length 0. -/
theorem endKey_breaks_column_clamp :
    editor_process_key Key.endKey (init_editor 24 80) =
      some { init_editor 24 80 with cx := 79 } ∧
    Reachable { init_editor 24 80 with cx := 79 } ∧
    ¬ ({ init_editor 24 80 with cx := 79 }.cx ≤
        lineLen { init_editor 24 80 with cx := 79 }.rows
          { init_editor 24 80 with cx := 79 }.cy) :=
  ⟨rfl, Reachable.key Key.endKey (Reachable.start 24 80 []) rfl, by decide⟩

/-- C1 (amended): for every reachable editor state the cursor row
satisfies `0 ≤ row ≤ lineCount`; processing any KeyEvent other than End
preserves the column clamp `0 ≤ column ≤ currentLineLength`; but the
cursor is not mutated exclusively by `editor_move_cursor`: the End
handler assigns `column = screencols - 1` directly, which can exceed the
current line length. -/
theorem cursor_row_bound_and_column_clamp :
    (∀ E, Reachable E → E.cy ≤ E.rows.length) ∧
    (∀ E E' k, k ≠ Key.endKey → editor_process_key k E = some E' →
      E.cx ≤ lineLen E.rows E.cy → E'.cx ≤ lineLen E'.rows E'.cy) ∧
    (∀ E, editor_process_key Key.endKey E = some { E with cx := E.screencols - 1 }) := by
  refine ⟨reachable_cy_le, ?_, fun E => rfl⟩
  intro E E' k hk heq hcx
  cases k with
  | ch b =>
    simp only [editor_process_key] at heq
    split at heq
    · exact Option.noConfusion heq
    · obtain rfl : _ = _ := Option.some.inj heq
      exact hcx
  | homeKey =>
    obtain rfl : _ = _ := Option.some.inj heq
    exact Nat.zero_le _
  | endKey => exact absurd rfl hk
  | delKey => obtain rfl : _ = _ := Option.some.inj heq; exact hcx
  | pageUp =>
    obtain rfl : _ = _ := Option.some.inj heq
    exact move_times_cx_clamped _ _ _ hcx
  | pageDown =>
    obtain rfl : _ = _ := Option.some.inj heq
    exact move_times_cx_clamped _ _ _ hcx
  | arrowLeft =>
    obtain rfl : _ = _ := Option.some.inj heq
    exact move_cx_clamped _ _
  | arrowRight =>
    obtain rfl : _ = _ := Option.some.inj heq
    exact move_cx_clamped _ _
  | arrowUp =>
    obtain rfl : _ = _ := Option.some.inj heq
    exact move_cx_clamped _ _
  | arrowDown =>
    obtain rfl : _ = _ := Option.some.inj heq
    exact move_cx_clamped _ _

/-- Witness for C1's amended theorem at the initial state. -/
theorem cursor_row_bound_and_column_clamp_witness :
    (init_editor 24 80).cy ≤ (init_editor 24 80).rows.length :=
  cursor_row_bound_and_column_clamp.1 (init_editor 24 80) (Reachable.start 24 80 [])

/-- C2: decoding of `ESC [` sequences.  `ESC [ X` for X in A, B, C, D, H,
F yields the arrow/Home/End keys consuming exactly 3 bytes; `ESC [ d ~`
for d in 1, 3, 4, 5, 6, 7, 8 yields Home, Delete, End, PageUp, PageDown,
Home, End consuming exactly 4 bytes; any other digit (0, 2, 9) with the
tilde, any digit with a different terminator, and any other non-digit
terminator, all yield Escape, still consuming the bytes read (4, 4 and 3
respectively). -/
theorem readKey_csi_sequences :
    (∀ rest, editor_read_key 0x1b ('['.toNat :: 'A'.toNat :: rest) = (Key.arrowUp, 3)) ∧
    (∀ rest, editor_read_key 0x1b ('['.toNat :: 'B'.toNat :: rest) = (Key.arrowDown, 3)) ∧
    (∀ rest, editor_read_key 0x1b ('['.toNat :: 'C'.toNat :: rest) = (Key.arrowRight, 3)) ∧
    (∀ rest, editor_read_key 0x1b ('['.toNat :: 'D'.toNat :: rest) = (Key.arrowLeft, 3)) ∧
    (∀ rest, editor_read_key 0x1b ('['.toNat :: 'H'.toNat :: rest) = (Key.homeKey, 3)) ∧
    (∀ rest, editor_read_key 0x1b ('['.toNat :: 'F'.toNat :: rest) = (Key.endKey, 3)) ∧
    (∀ rest, editor_read_key 0x1b ('['.toNat :: '1'.toNat :: '~'.toNat :: rest) = (Key.homeKey, 4)) ∧
    (∀ rest, editor_read_key 0x1b ('['.toNat :: '3'.toNat :: '~'.toNat :: rest) = (Key.delKey, 4)) ∧
    (∀ rest, editor_read_key 0x1b ('['.toNat :: '4'.toNat :: '~'.toNat :: rest) = (Key.endKey, 4)) ∧
    (∀ rest, editor_read_key 0x1b ('['.toNat :: '5'.toNat :: '~'.toNat :: rest) = (Key.pageUp, 4)) ∧
    (∀ rest, editor_read_key 0x1b ('['.toNat :: '6'.toNat :: '~'.toNat :: rest) = (Key.pageDown, 4)) ∧
    (∀ rest, editor_read_key 0x1b ('['.toNat :: '7'.toNat :: '~'.toNat :: rest) = (Key.homeKey, 4)) ∧
    (∀ rest, editor_read_key 0x1b ('['.toNat :: '8'.toNat :: '~'.toNat :: rest) = (Key.endKey, 4)) ∧
    (∀ d rest, (d = '0'.toNat ∨ d = '2'.toNat ∨ d = '9'.toNat) →
      editor_read_key 0x1b ('['.toNat :: d :: '~'.toNat :: rest) = (Key.ch 0x1b, 4)) ∧
    (∀ d s2 rest, '0'.toNat ≤ d → d ≤ '9'.toNat → s2 ≠ '~'.toNat →
      editor_read_key 0x1b ('['.toNat :: d :: s2 :: rest) = (Key.ch 0x1b, 4)) ∧
    (∀ x rest, ¬ ('0'.toNat ≤ x ∧ x ≤ '9'.toNat) →
      x ∉ ['A'.toNat, 'B'.toNat, 'C'.toNat, 'D'.toNat, 'H'.toNat, 'F'.toNat] →
      editor_read_key 0x1b ('['.toNat :: x :: rest) = (Key.ch 0x1b, 3)) := by
  refine ⟨fun rest => rfl, fun rest => rfl, fun rest => rfl, fun rest => rfl,
    fun rest => rfl, fun rest => rfl, fun rest => rfl, fun rest => rfl,
    fun rest => rfl, fun rest => rfl, fun rest => rfl, fun rest => rfl,
    fun rest => rfl, ?_, ?_, ?_⟩
  · rintro d rest (rfl | rfl | rfl) <;> rfl
  · intro d s2 rest h0 h9 hs2
    have h0' : 48 ≤ d := h0
    have h9' : d ≤ 57 := h9
    have hs2' : s2 ≠ 126 := hs2
    simp [editor_read_key, h0', h9', hs2']
  · intro x rest hd hx
    simp only [List.mem_cons, List.mem_singleton, not_or] at hx
    obtain ⟨hA, hB, hC, hD, hH, hF⟩ := hx
    have hd' : ¬ (48 ≤ x ∧ x ≤ 57) := hd
    have hA' : x ≠ 65 := hA
    have hB' : x ≠ 66 := hB
    have hC' : x ≠ 67 := hC
    have hD' : x ≠ 68 := hD
    have hH' : x ≠ 72 := hH
    have hF' : x ≠ 70 := hF.1
    cases rest with
    | nil => simp [editor_read_key, hd', hA', hB', hC', hD', hH', hF']
    | cons b t =>
      simp [editor_read_key, hd', hA', hB', hC', hD', hH', hF']

/-- Witness for C2 at the concrete unmapped digit sequence `ESC [ 2 ~`. -/
theorem readKey_csi_sequences_witness :
    editor_read_key 0x1b ('['.toNat :: '2'.toNat :: '~'.toNat :: []) =
      (Key.ch 0x1b, 4) := by
  obtain ⟨-, -, -, -, -, -, -, -, -, -, -, -, -, h, -, -⟩ := readKey_csi_sequences
  exact h '2'.toNat [] (Or.inr (Or.inl rfl))

/-- C3 (counterexample): the claim says that whenever either of the two
lookahead reads after the escape byte times out, exactly 1 byte has been
consumed.  With the byte `[` available and then a timeout (the second
lookahead read returns no byte), the decoder does return Escape but has
consumed 2 bytes, not 1. -/
theorem readKey_escape_consumes_two :
    editor_read_key 0x1b ['['.toNat] = (Key.ch 0x1b, 2) ∧ (2 : Nat) ≠ 1 :=
  ⟨rfl, by decide⟩

/-- C3 (amended): an isolated escape byte with no further input yields
exactly one Escape event consuming exactly 1 byte; if one byte follows
and the second lookahead read times out, the decoder yields Escape having
consumed 2 bytes. -/
theorem readKey_escape_timeout_behaviour :
    editor_read_key 0x1b [] = (Key.ch 0x1b, 1) ∧
    (∀ b, editor_read_key 0x1b [b] = (Key.ch 0x1b, 2)) :=
  ⟨rfl, fun b => rfl⟩

/-- C4: for every cursor state satisfying the data model's row bound
`row ≤ lineCount` and every navigation key, one `editor_move_cursor`
leaves the cursor with `0 ≤ column ≤ lineLength(row)` (0 past the end)
and `0 ≤ row ≤ lineCount`. -/
theorem moveCursor_in_bounds (E : EditorConfig) (k : Key)
    (hk : k = Key.arrowUp ∨ k = Key.arrowDown ∨ k = Key.arrowLeft ∨ k = Key.arrowRight)
    (hcy : E.cy ≤ E.rows.length) :
    (0 ≤ (editor_move_cursor k E).cx ∧
      (editor_move_cursor k E).cx ≤
        lineLen (editor_move_cursor k E).rows (editor_move_cursor k E).cy) ∧
    (0 ≤ (editor_move_cursor k E).cy ∧
      (editor_move_cursor k E).cy ≤ (editor_move_cursor k E).rows.length) :=
  ⟨⟨Nat.zero_le _, move_cx_clamped k E⟩, ⟨Nat.zero_le _, move_cy_le k E hcy⟩⟩

/-- Witness for C4 at the initial state and ArrowDown. -/
theorem moveCursor_in_bounds_witness :
    (0 ≤ (editor_move_cursor Key.arrowDown (init_editor 24 80)).cx ∧
      (editor_move_cursor Key.arrowDown (init_editor 24 80)).cx ≤
        lineLen (editor_move_cursor Key.arrowDown (init_editor 24 80)).rows
          (editor_move_cursor Key.arrowDown (init_editor 24 80)).cy) ∧
    (0 ≤ (editor_move_cursor Key.arrowDown (init_editor 24 80)).cy ∧
      (editor_move_cursor Key.arrowDown (init_editor 24 80)).cy ≤
        (editor_move_cursor Key.arrowDown (init_editor 24 80)).rows.length) :=
  moveCursor_in_bounds (init_editor 24 80) Key.arrowDown
    (Or.inr (Or.inl rfl)) (Nat.le_refl 0)

/-- C5: for a cursor state satisfying the data-model clamps, ArrowRight
at the last column of a non-final line moves to column 0 of the next
row; ArrowLeft at column 0 of a non-first row moves to the last column
of the previous row; left-then-right and right-then-left round-trip to
the original position except at the first/last buffer boundary, where
the move is a no-op. -/
theorem moveCursor_wrap_roundtrip (E : EditorConfig)
    (hcx : E.cx ≤ lineLen E.rows E.cy) (hcy : E.cy ≤ E.rows.length) :
    (E.cy + 1 < E.rows.length → E.cx = lineLen E.rows E.cy →
      editor_move_cursor Key.arrowRight E = { E with cy := E.cy + 1, cx := 0 }) ∧
    (0 < E.cy → E.cx = 0 →
      editor_move_cursor Key.arrowLeft E =
        { E with cy := E.cy - 1, cx := lineLen E.rows (E.cy - 1) }) ∧
    (¬ (E.cx = 0 ∧ E.cy = 0) →
      editor_move_cursor Key.arrowRight (editor_move_cursor Key.arrowLeft E) = E) ∧
    (E.cy < E.rows.length →
      editor_move_cursor Key.arrowLeft (editor_move_cursor Key.arrowRight E) = E) ∧
    ((E.cx = 0 ∧ E.cy = 0) → editor_move_cursor Key.arrowLeft E = E) ∧
    (E.cy = E.rows.length → editor_move_cursor Key.arrowRight E = E) := by
  obtain ⟨cx, cy, ro, co, sr, sc, rows⟩ := E
  have L := move_left_split ⟨cx, cy, ro, co, sr, sc, rows⟩ hcx
  have R := move_right_split ⟨cx, cy, ro, co, sr, sc, rows⟩ hcx
  simp only at L R hcx hcy ⊢
  refine ⟨?_, ?_, ?_, ?_, ?_, ?_⟩
  · intro h1 h2
    exact R.2.1 (by omega) h2
  · intro h1 h2
    exact L.2.1 h2 h1
  · intro h1
    by_cases hx : cx = 0
    · have hy : 0 < cy := by
        rcases Nat.eq_zero_or_pos cy with h | h
        · exact absurd ⟨hx, h⟩ h1
        · exact h
      rw [L.2.1 hx hy]
      have R1 := move_right_split ⟨lineLen rows (cy - 1), cy - 1, ro, co, sr, sc, rows⟩
        (le_refl _)
      rw [R1.2.1 (by simp only; omega) rfl]
      simp [EditorConfig.mk.injEq]
      omega
    · have hcy2 : cy < rows.length := by
        by_cases h : cy < rows.length
        · exact h
        · have he : cy = rows.length := by omega
          rw [he, lineLen_past_end rows rows.length (le_refl _)] at hcx
          omega
      rw [L.1 hx]
      have R1 := move_right_split ⟨cx - 1, cy, ro, co, sr, sc, rows⟩ (by simp only; omega)
      rw [R1.1 hcy2 (by simp only; omega)]
      simp [EditorConfig.mk.injEq]
      omega
  · intro h1
    by_cases hx : cx < lineLen rows cy
    · rw [R.1 h1 hx]
      have L1 := move_left_split ⟨cx + 1, cy, ro, co, sr, sc, rows⟩ (by simp only; omega)
      rw [L1.1 (by simp only; omega)]
      simp [EditorConfig.mk.injEq]
    · have he : cx = lineLen rows cy := by omega
      rw [R.2.1 h1 he]
      have L1 := move_left_split ⟨0, cy + 1, ro, co, sr, sc, rows⟩ (Nat.zero_le _)
      rw [L1.2.1 rfl (Nat.succ_pos _)]
      simp [EditorConfig.mk.injEq, Nat.add_sub_cancel]
      exact he.symm
  · intro h1
    exact L.2.2 h1.1 h1.2
  · intro h1
    exact R.2.2 (by omega)

/-- Witness for C5: the left-then-right round trip from column 1 of a
one-row store. -/
theorem moveCursor_wrap_roundtrip_witness :
    editor_move_cursor Key.arrowRight
      (editor_move_cursor Key.arrowLeft
        { cx := 1, cy := 0, rowoff := 0, coloff := 0, screenrows := 24,
          screencols := 80, rows := [['a']] }) =
      { cx := 1, cy := 0, rowoff := 0, coloff := 0, screenrows := 24,
        screencols := 80, rows := [['a']] } :=
  (moveCursor_wrap_roundtrip
    { cx := 1, cy := 0, rowoff := 0, coloff := 0, screenrows := 24,
      screencols := 80, rows := [['a']] }
    (by decide) (by decide)).2.2.1 (by decide)

/-- C6: after one `editor_scroll` the cursor row lies inside the visible
window, `rowoff ≤ cy < rowoff + screenrows`, for every prior offset and
every cursor row, provided the screen has at least one row. -/
theorem scroll_window_contains_cursor (E : EditorConfig) (h : 1 ≤ E.screenrows) :
    (editor_scroll E).rowoff ≤ (editor_scroll E).cy ∧
    (editor_scroll E).cy <
      (editor_scroll E).rowoff + (editor_scroll E).screenrows := by
  obtain ⟨cx, cy, ro, co, sr, sc, rows⟩ := E
  simp only [editor_scroll] <;> (repeat' split) <;> simp_all <;> omega

/-- Witness for C6 at the initial state. -/
theorem scroll_window_contains_cursor_witness :
    (editor_scroll (init_editor 24 80)).rowoff ≤ (editor_scroll (init_editor 24 80)).cy ∧
    (editor_scroll (init_editor 24 80)).cy <
      (editor_scroll (init_editor 24 80)).rowoff +
        (editor_scroll (init_editor 24 80)).screenrows :=
  scroll_window_contains_cursor (init_editor 24 80) (by decide)

/-- C7: processing PageUp (resp. PageDown) yields exactly the state of
iterating `editor_move_cursor` with ArrowUp (resp. ArrowDown)
`screenrows` times, for every starting state and Line Store. -/
theorem page_keys_iterate_arrows (E : EditorConfig) :
    editor_process_key Key.pageUp E =
      some ((editor_move_cursor Key.arrowUp)^[E.screenrows] E) ∧
    editor_process_key Key.pageDown E =
      some ((editor_move_cursor Key.arrowDown)^[E.screenrows] E) := by
  rw [editor_process_key, editor_process_key, move_times_eq_iterate,
    move_times_eq_iterate]
  exact ⟨rfl, rfl⟩

/-- C8: one refresh performs a single write whose buffer is, in order:
cursor-hide, cursor-home, the composed rows each followed by
erase-to-end-of-line with CRLF between rows but not after the last, the
cursor-positioning sequence with 1-based coordinates
`(cy - rowoff + 1, cx - coloff + 1)`, and cursor-show. -/
theorem refreshScreen_single_buffer (E : EditorConfig) :
    editor_refresh_screen E =
      (editor_scroll E,
        "\x1b[?25l".toList ++ "\x1b[H".toList
          ++ List.intercalate "\r\n".toList
              ((List.range (editor_scroll E).screenrows).map
                (fun i => draw_row_content (editor_scroll E) i ++ "\x1b[K".toList))
          ++ ("\x1b[".toList
              ++ (Nat.repr ((editor_scroll E).cy - (editor_scroll E).rowoff + 1)).toList
              ++ [';']
              ++ (Nat.repr ((editor_scroll E).cx - (editor_scroll E).coloff + 1)).toList
              ++ ['H'])
          ++ "\x1b[?25h".toList) := by
  rw [editor_refresh_screen, position_seq, editor_draw_rows_intercalate]

/-- C9: with an empty Line Store the row at index `screenrows / 3` is the
centered welcome banner, truncated to the screen width (its length never
exceeds `screencols`), and every other row is the bare filler `~`; with a
non-empty store, every row past the end of content is the bare filler. -/
theorem drawRows_banner_and_filler (E : EditorConfig) :
    (E.rows = [] → ∀ i,
      draw_row_content E i =
        if i = E.screenrows / 3 then
          (if (E.screencols - min WELCOME.length E.screencols) / 2 ≠ 0 then
            '~' :: List.replicate
              ((E.screencols - min WELCOME.length E.screencols) / 2 - 1) ' '
          else []) ++ WELCOME.take (min WELCOME.length E.screencols)
        else ['~']) ∧
    (E.rows = [] →
      (draw_row_content E (E.screenrows / 3)).length ≤ E.screencols) ∧
    (E.rows ≠ [] → ∀ i, E.rows.length ≤ i + E.rowoff →
      draw_row_content E i = ['~']) := by
  refine ⟨?_, ?_, ?_⟩
  · intro h i
    simp only [draw_row_content, h, List.length_nil, Nat.zero_le, if_pos, true_and,
      welcome_row]
  · intro h
    simp only [draw_row_content, h, List.length_nil, Nat.zero_le, if_pos, true_and,
      welcome_row, if_pos rfl]
    have hwl : min WELCOME.length E.screencols ≤ E.screencols := min_le_right _ _
    have hwl2 : min WELCOME.length E.screencols ≤ WELCOME.length := min_le_left _ _
    split <;>
      simp [List.length_append, List.length_replicate, List.length_take] <;> omega
  · intro h i hi
    have hlen : E.rows.length ≠ 0 := fun h0 => h (List.length_eq_zero.mp h0)
    simp only [draw_row_content]
    rw [if_pos hi, if_neg]
    intro hc
    exact hlen hc.1

/-- Witness for C9: with a 9 x 40 screen and empty store the banner row's
length is within the screen width. -/
theorem drawRows_banner_and_filler_witness :
    (draw_row_content (init_editor 9 40) (9 / 3)).length ≤ 40 :=
  (drawRows_banner_and_filler (init_editor 9 40)).2.1 rfl

/-- C10: the horizontal offset `coloff` is 0 in every reachable state
(initialized to 0 and never written by any operation); consequently every
rendered text row is the prefix slice of its line of width `screencols`,
and the emitted cursor-column coordinate is `cx + 1`. -/
theorem coloff_always_zero :
    (∀ E, Reachable E → E.coloff = 0) ∧
    (∀ E filerow, E.coloff = 0 →
      text_row E filerow = (E.rows.getD filerow []).take E.screencols) ∧
    (∀ E, E.coloff = 0 →
      position_seq E =
        "\x1b[".toList ++ (Nat.repr (E.cy - E.rowoff + 1)).toList ++ [';']
          ++ (Nat.repr (E.cx + 1)).toList ++ ['H']) := by
  refine ⟨reachable_coloff_zero, ?_, ?_⟩
  · intro E filerow h
    obtain ⟨cx, cy, ro, co, sr, sc, rows⟩ := E
    simp only at h
    subst h
    dsimp only [text_row]
    simp only [Nat.cast_zero, sub_zero, List.drop_zero]
    rw [if_neg (not_lt.mpr (Int.natCast_nonneg _))]
    split
    · next hlt =>
      rw [Int.toNat_natCast]
    · next hge =>
      rw [Int.toNat_natCast, List.take_length,
        List.take_of_length_le (by exact_mod_cast not_lt.mp hge)]
  · intro E h
    obtain ⟨cx, cy, ro, co, sr, sc, rows⟩ := E
    simp only at h
    subst h
    simp [position_seq]

/-- Witness for C10 at the initial state. -/
theorem coloff_always_zero_witness : (init_editor 24 80).coloff = 0 :=
  coloff_always_zero.1 (init_editor 24 80) (Reachable.start 24 80 [])

end Kilo
